import Mathlib

/-!
Shallow embedding of the LimaHost backup service
(reference implementation embedded in src/backup/README.md, with the
per-VM exclusivity check of the overlapping BackupService implementation),
together with theorems settling the frozen claims about it.

Modelling conventions:
* byte streams and file contents are `List Nat` (one entry per byte);
* SHA-256 is an uninterpreted parameter `hash : List Nat → List Nat`
  threaded through every definition that calls `crypto.createHash('sha256')`;
* JavaScript `Map` objects are association lists with `Map.get`/`Map.set`/
  `Map.delete` modelled by `mapGet`/`mapSet`/`mapErase`;
* timestamps (`Date.now()`, ISO `createdAt` strings) are milliseconds since
  the epoch, `Nat`; comparing ISO strings of the same clock agrees with
  comparing the underlying milliseconds;
* a `throw` of the JavaScript code is `Except.error` carrying the message;
* external VM control commands (`limactl stop` / `limactl start`) are
  recorded as an explicit event trace.
-/

namespace LimaHostBackup

abbrev Bytes := List Nat

/-- JavaScript `Map.prototype.get`: first (only) binding of the key. -/
def mapGet (m : List (String × α)) (k : String) : Option α :=
  (m.find? (fun p => p.1 = k)).map (fun p => p.2)

/-- JavaScript `Map.prototype.set`: replace the binding in place, or append. -/
def mapSet (m : List (String × α)) (k : String) (v : α) : List (String × α) :=
  if m.any (fun p => p.1 = k) then
    m.map (fun p => if p.1 = k then (k, v) else p)
  else
    m ++ [(k, v)]

/-- JavaScript `Map.prototype.delete`. -/
def mapErase (m : List (String × α)) (k : String) : List (String × α) :=
  m.filter (fun p => ¬ p.1 = k)

/-- `String.prototype.padStart(len, c)`. -/
def padStart (s : String) (len : Nat) (c : Char) : String :=
  String.mk (List.replicate (len - s.length) c) ++ s

/-- One element of `metadata.chunks` as recorded by `splitAndUpload`:
`{ id, backupId, index, size, checksum }`. -/
structure ChunkRec where
  id : String
  backupId : String
  index : Nat
  size : Nat
  checksum : Bytes
deriving Repr, DecidableEq

/-- The chunk identifier built in `splitAndUpload`:
`` `${metadata.id}-chunk-${chunkIndex.toString().padStart(6, '0')}` ``. -/
def chunkId (backupId : String) (i : Nat) : String :=
  backupId ++ "-chunk-" ++ padStart (toString i) 6 '0'

/-- The storage key used by `uploadChunk`, `downloadChunk` and `deleteChunk`:
`` `backups/${backupId}/chunks/${chunkId}` ``. -/
def chunkKey (backupId cid : String) : String :=
  "backups/" ++ backupId ++ "/chunks/" ++ cid

/-- The storage backend state: blob bytes by key.  `uploadChunk` writes
through `fs.writeFile` / `putObject`, both idempotent overwrites. -/
abbrev Storage := List (String × Bytes)

/-- `uploadChunk(chunkId, chunkData, metadata)`. -/
def uploadChunk (storage : Storage) (backupId cid : String) (data : Bytes) : Storage :=
  mapSet storage (chunkKey backupId cid) data

/-- `downloadChunk(chunkId, backupId)`: `fs.readFile` / `getObject`, which
fail when the key is absent. -/
def downloadChunk (storage : Storage) (backupId cid : String) : Except String Bytes :=
  match mapGet storage (chunkKey backupId cid) with
  | some b => .ok b
  | none => .error ("Chunk not found: " ++ chunkKey backupId cid)

/-- Structural worker for `splitEvery`: the fuel argument (instantiated
with the list length, an upper bound on the number of slices) only makes
the recursion structural; it never cuts a slice short. -/
def splitEveryGo (n : Nat) : Nat → Bytes → List Bytes
  | 0, _ => []
  | _ + 1, [] => []
  | fuel + 1, a :: l => (a :: l).take n :: splitEveryGo n fuel ((a :: l).drop n)

/-- The successive pieces handed to the `for await` loop of `splitAndUpload`
by `fs.createReadStream(filePath, { highWaterMark: chunkSize })`: slices of
exactly `chunkSize` bytes, the last possibly shorter.  (The degenerate
`chunkSize = 0` yields no pieces; the service always configures a positive
chunk size, default 64 MiB.) -/
def splitEvery (n : Nat) (l : Bytes) : List Bytes :=
  if n = 0 then [] else splitEveryGo n l.length l

/-- The loop body accumulation of `splitAndUpload`: starting at chunk index
`i`, record and upload each piece in order. -/
def splitAndUploadGo (hash : Bytes → Bytes) (backupId : String) :
    Nat → List Bytes → Storage → List ChunkRec × Storage
  | _, [], st => ([], st)
  | i, piece :: rest, st =>
    let cid := chunkId backupId i
    let cdata : ChunkRec :=
      { id := cid, backupId := backupId, index := i,
        size := piece.length, checksum := hash piece }
    let st1 := uploadChunk st backupId cid piece
    let out := splitAndUploadGo hash backupId (i + 1) rest st1
    (cdata :: out.1, out.2)

/-- `splitAndUpload(filePath, metadata, operation)`: split the final byte
stream into `metadata.chunkSize`-byte chunks, hash and upload each, and
return the recorded chunk list (progress bookkeeping on the operation is
not itself part of any claim and is omitted). -/
def splitAndUpload (hash : Bytes → Bytes) (backupId : String) (chunkSize : Nat)
    (file : Bytes) (storage : Storage) : List ChunkRec × Storage :=
  splitAndUploadGo hash backupId 0 (splitEvery chunkSize file) storage

/-- Insertion into a run already ordered by ascending `index`. -/
def insertByIndex (c : ChunkRec) : List ChunkRec → List ChunkRec
  | [] => [c]
  | d :: ds => if c.index ≤ d.index then c :: d :: ds else d :: insertByIndex c ds

/-- `metadata.chunks.sort((a, b) => a.index - b.index)`: a comparison sort
by ascending `index`. -/
def sortByIndex : List ChunkRec → List ChunkRec
  | [] => []
  | c :: cs => insertByIndex c (sortByIndex cs)

/-- The service configuration fields consumed by the embedded operations
(`this.config`).  `retention` models the `retention` object: JavaScript
property lookup `this.config.retention[backupType]` yields `undefined`
(here `none`) for an unconfigured class. -/
structure Config where
  encryptionKey : Option String
  requireIntegrityCheck : Bool
  retention : String → Option Nat
  timeout : Nat
  defaultCompression : String
  defaultEncryption : String
  chunkSize : Nat

/-- The `BackupMetadata` object literal built by `createBackup` (fields
`description`, `tags`, `createdBy` and the raw `vmInfo` snapshot are read by
no embedded operation and are omitted).  `createdAt`/`completedAt` are
milliseconds; `checksum` is `null` until completion. -/
structure BackupMetadata where
  id : String
  vmName : String
  type : String
  createdAt : Nat
  compression : String
  encryption : String
  chunkSize : Nat
  status : String
  size : Nat
  chunks : List ChunkRec
  checksum : Option Bytes
  integrityVerified : Bool
  completedAt : Option Nat
deriving Repr, DecidableEq

/-- JavaScript property access `metadata.backupId`: the metadata object has
fields `id, vmName, vmInfo, type, description, tags, createdAt, createdBy,
compression, encryption, chunkSize, status, size, chunks, checksum,
integrityVerified` — there is no `backupId` field, so the access evaluates
to `undefined`. -/
def metadataBackupIdField (_m : BackupMetadata) : Option String := none

/-- Template-literal interpolation of a possibly-`undefined` value:
`undefined` prints as the string `"undefined"`. -/
def jsStringOf : Option String → String
  | none => "undefined"
  | some s => s

/-- The download loop of `downloadAndReassembleChunks`, writing each
downloaded chunk sequentially to the assembled file. -/
def reassembleGo (storage : Storage) (backupId : String) :
    List ChunkRec → Except String Bytes
  | [] => .ok []
  | c :: cs => do
    let data ← downloadChunk storage backupId c.id
    let rest ← reassembleGo storage backupId cs
    .ok (data ++ rest)

/-- `downloadAndReassembleChunks(metadata, operation)`: sort
`metadata.chunks` by `index`, then download each chunk with
`this.downloadChunk(chunk.id, metadata.backupId)` and concatenate.  Note
the source passes `metadata.backupId`, which is `undefined` (the metadata
identifier field is named `id`), so the lookup key interpolates to
`backups/undefined/chunks/...`. -/
def downloadAndReassembleChunks (storage : Storage) (metadata : BackupMetadata) :
    Except String Bytes :=
  reassembleGo storage (jsStringOf (metadataBackupIdField metadata))
    (sortByIndex metadata.chunks)

/-- One entry of `limactl list --json` as consumed by `getVmInfo`. -/
structure VmInfo where
  name : String
  status : String
deriving Repr, DecidableEq

/-- `getVmInfo(vmName)`: `vms.find(v => v.name === vmName)`, with the VM
list (the `limactl list --json` output) passed explicitly. -/
def getVmInfo (vms : List VmInfo) (vmName : String) : Option VmInfo :=
  vms.find? (fun v => v.name = vmName)

/-- External VM control commands issued through `limactl`, recorded as a
trace. -/
inductive VmEvent where
  | stop (vmName : String)
  | start (vmName : String)
deriving Repr, DecidableEq

/-- `compressFile(filePath, compressionType)`: gzip and brotli wrap the
stream in the respective codec (an uninterpreted transform `compress`);
any other value resolves the input path unchanged. -/
def compressFile (compress : String → Bytes → Bytes) (compressionType : String)
    (file : Bytes) : Bytes :=
  if compressionType = "gzip" ∨ compressionType = "brotli" then
    compress compressionType file
  else
    file

/-- `encryptFile(filePath, encryptionType)`: with no configured
`encryptionKey` the input file is returned unchanged; otherwise a fresh
random IV (passed explicitly here) is written first, followed by the
CBC cipher stream (an uninterpreted transform `cipher key iv data`). -/
def encryptFile (cfg : Config) (cipher : String → Bytes → Bytes → Bytes)
    (iv : Bytes) (_encryptionType : String) (file : Bytes) : Except String Bytes :=
  match cfg.encryptionKey with
  | none => .ok file
  | some key => .ok (iv ++ cipher key iv file)

/-- `decryptFile(filePath, encryptionType)`: with no configured
`encryptionKey` the input file is returned unchanged; otherwise the first
16 bytes are read back as the IV and the remainder deciphered. -/
def decryptFile (cfg : Config) (decipher : String → Bytes → Bytes → Bytes)
    (_encryptionType : String) (file : Bytes) : Except String Bytes :=
  match cfg.encryptionKey with
  | none => .ok file
  | some key => .ok (decipher key (file.take 16) (file.drop 16))

/-- `decompressFile(filePath, compressionType)`: gzip and brotli run the
inverse codec, which rejects malformed input (`decompress` returns
`Except`); any other value resolves the input path unchanged. -/
def decompressFile (decompress : String → Bytes → Except String Bytes)
    (compressionType : String) (file : Bytes) : Except String Bytes :=
  if compressionType = "gzip" ∨ compressionType = "brotli" then
    decompress compressionType file
  else
    .ok file

/-- Steps 3 and 4 of `performBackup`: compress when
`metadata.compression !== 'none'`, then encrypt when
`metadata.encryption !== 'none'`. -/
def backupTransform (cfg : Config) (compress : String → Bytes → Bytes)
    (cipher : String → Bytes → Bytes → Bytes) (iv : Bytes)
    (metadata : BackupMetadata) (file : Bytes) : Except String Bytes := do
  let compressedFile :=
    if metadata.compression ≠ "none" then
      compressFile compress metadata.compression file
    else file
  let encryptedFile ←
    if metadata.encryption ≠ "none" then
      encryptFile cfg cipher iv metadata.encryption compressedFile
    else .ok compressedFile
  .ok encryptedFile

/-- `verifyBackupIntegrity`'s download-and-rehash loop; the surrounding
`try`/`catch` turns any download failure into a `false` result. -/
def verifyChunks (hash : Bytes → Bytes) (storage : Storage) :
    List ChunkRec → Bool
  | [] => true
  | c :: cs =>
    match downloadChunk storage c.backupId c.id with
    | .error _ => false
    | .ok data =>
      if hash data ≠ c.checksum then false else verifyChunks hash storage cs

/-- `verifyBackupIntegrity(chunks, expectedChecksum)`: returns `true`
immediately when `requireIntegrityCheck` is disabled; otherwise
re-downloads every chunk and compares its SHA-256 with the recorded
checksum.  (The `expectedChecksum` argument is never read by the source.) -/
def verifyBackupIntegrity (hash : Bytes → Bytes) (cfg : Config)
    (storage : Storage) (chunks : List ChunkRec) : Bool :=
  if ¬ cfg.requireIntegrityCheck then true
  else verifyChunks hash storage chunks

/-- The value returned by `performBackup`:
`{ size, chunks, checksum, integrityVerified }`. -/
structure BackupResult where
  size : Nat
  chunks : List ChunkRec
  checksum : Bytes
  integrityVerified : Bool
deriving Repr, DecidableEq

/-- Steps 5–7 of `performBackup` on the final (post-compression,
post-encryption) byte stream: split and upload, hash the whole stream,
verify integrity; `size` is `fs.stat(encryptedFile).size`. -/
def performBackupResult (hash : Bytes → Bytes) (cfg : Config)
    (storage : Storage) (backupId : String) (chunkSize : Nat)
    (finalBytes : Bytes) : BackupResult × Storage :=
  let out := splitAndUpload hash backupId chunkSize finalBytes storage
  let checksum := hash finalBytes
  let integrityVerified := verifyBackupIntegrity hash cfg out.2 out.1
  ({ size := finalBytes.length, chunks := out.1, checksum := checksum,
     integrityVerified := integrityVerified }, out.2)

/-- The ephemeral `Operation` object of the orchestrator (the per-backup
`chunks` scratch array on the object is read by no embedded operation and
is omitted). -/
structure Operation where
  id : String
  type : String
  vmName : String
  backupId : Option String
  status : String
  startTime : Nat
  endTime : Option Nat
  progress : Nat
  size : Nat
  error : Option String
deriving Repr, DecidableEq

/-- The success path of `createBackup` after `performBackup` returns:
`metadata.status = 'completed'`, `size`, `chunks`, `checksum`,
`integrityVerified` and `completedAt` are filled in from the result. -/
def completeBackupMetadata (metadata : BackupMetadata) (r : BackupResult)
    (completedAt : Nat) : BackupMetadata :=
  { metadata with
      status := "completed", size := r.size, chunks := r.chunks,
      checksum := some r.checksum, integrityVerified := r.integrityVerified,
      completedAt := some completedAt }

/-- The success path of `createBackup` for the operation record:
`status = 'completed'`, `endTime`, `size`, `progress = 100`. -/
def completeOperation (op : Operation) (endTime : Nat) (size : Nat) : Operation :=
  { op with
      status := "completed"
      endTime := some endTime
      size := size
      progress := 100 }

/-- The whole success path of `createBackup` from the final archive bytes:
run steps 5–7 of `performBackup`, then complete the metadata record and
the operation record.  No branch consults `integrityVerified`. -/
def createBackupSuccess (hash : Bytes → Bytes) (cfg : Config)
    (storage : Storage) (metadata : BackupMetadata) (op : Operation)
    (finalBytes : Bytes) (completedAt : Nat) :
    BackupMetadata × Operation × Storage :=
  let out := performBackupResult hash cfg storage metadata.id metadata.chunkSize finalBytes
  (completeBackupMetadata metadata out.1 completedAt,
   completeOperation op completedAt out.1.size, out.2)

/-- Lines 1109–1137 of the orchestrator's `createBackup`: request
acceptance — VM existence check, then registration of a fresh `running`
backup `Operation`.  No inspection of existing operations is performed
before registering. -/
def createBackupAccept (vms : List VmInfo)
    (operations : List (String × Operation)) (vmName backupId : String)
    (startTime : Nat) : Except String (Operation × List (String × Operation)) :=
  match getVmInfo vms vmName with
  | none => .error ("VM " ++ vmName ++ " not found")
  | some _ =>
    let operation : Operation :=
      { id := "op-" ++ backupId, type := "backup", vmName := vmName,
        backupId := some backupId, status := "running",
        startTime := startTime, endTime := none, progress := 0,
        size := 0, error := none }
    .ok (operation, mapSet operations operation.id operation)

/-- The backup record registered in `this.activeBackups` by the overlapping
`BackupService.createBackup` implementation (fields irrelevant to the
embedded check — `appId`, `appName`, `location`, `checksum`,
`retentionDays`, `description`, file/error metadata — are omitted). -/
structure ServiceBackup where
  id : String
  vmName : String
  type : String
  status : String
  createdAt : Nat
  size : Nat
  progress : Nat
deriving Repr, DecidableEq

/-- `BackupService.createBackup(options)` request phase (the overlapping
implementation): VM existence check, then the per-VM exclusivity loop over
`this.activeBackups` — any entry with the same `vmName` and status
`in_progress` throws `Backup already in progress for VM ...` — then
registration of the new `in_progress` record. -/
def serviceCreateBackup (vms : List VmInfo)
    (activeBackups : List (String × ServiceBackup)) (vmName backupId : String)
    (backupType : String) (now : Nat) :
    Except String (List (String × ServiceBackup)) :=
  match getVmInfo vms vmName with
  | none => .error ("VM " ++ vmName ++ " not found")
  | some _ =>
    if activeBackups.any (fun p => p.2.vmName = vmName ∧ p.2.status = "in_progress") then
      .error ("Backup already in progress for VM " ++ vmName)
    else
      .ok (mapSet activeBackups backupId
        { id := backupId, vmName := vmName, type := backupType,
          status := "in_progress", createdAt := now, size := 0, progress := 0 })

/-- The durable service state touched by deletion and retention: the
in-memory backups map (mirroring the per-id metadata files), the storage
backend, and the cumulative `metrics.storageUsed` counter. -/
structure ServiceState where
  backups : List (String × BackupMetadata)
  storage : Storage
  storageUsed : Int
deriving Repr, DecidableEq

/-- `deleteChunk(chunkId, backupId)`: `fs.unlink(...).catch(() => {})` /
`deleteObject(...).catch(() => {})` — deleting an absent key is a no-op,
never an error. -/
def deleteChunk (storage : Storage) (backupId cid : String) : Storage :=
  mapErase storage (chunkKey backupId cid)

/-- `deleteBackup(backupId)`: throws `Backup ... not found` when the id has
no metadata record; otherwise deletes every recorded chunk (each delete in
its own `try`/`catch`, logged, never aborting), removes the metadata record
(file unlink plus map delete), and decrements `metrics.storageUsed` by the
deleted backup's `size`. -/
def deleteBackup (st : ServiceState) (backupId : String) :
    Except String ServiceState :=
  match mapGet st.backups backupId with
  | none => .error ("Backup " ++ backupId ++ " not found")
  | some metadata =>
    .ok { backups := mapErase st.backups backupId,
          storage := metadata.chunks.foldl
            (fun s c => deleteChunk s backupId c.id) st.storage,
          storageUsed := st.storageUsed - metadata.size }

/-- `applyRetentionPolicy(backupType)`: `if (!retention) return` (both an
unconfigured class and a configured `0` are falsy); otherwise compute
`cutoffDate = now - retention` days, collect every backup of the class
whose `createdAt` is strictly before the cutoff, and delete each through
`deleteBackup`, individual failures caught and logged. -/
def applyRetentionPolicy (cfg : Config) (now : Nat) (st : ServiceState)
    (backupType : String) : ServiceState :=
  match cfg.retention backupType with
  | none => st
  | some retention =>
    if retention = 0 then st else
      let cutoff := now - retention * 86400000
      let backupsToDelete :=
        (st.backups.filter
          (fun p => p.2.type = backupType ∧ p.2.createdAt < cutoff)).map (fun p => p.1)
      backupsToDelete.foldl
        (fun s bid =>
          match deleteBackup s bid with
          | .ok s1 => s1
          | .error _ => s) st

/-- `performRestore(metadata, options, operation)`: reassemble the archive,
decrypt when `metadata.encryption !== 'none'`, decompress when
`metadata.compression !== 'none'`, stop the target VM when it exists and is
running, overwrite its disk image (`{vmDir}/disk.img`) with the
reconstructed file, and start it.  Returns the restore outcome — the disk
path written with its new contents — together with the trace of VM control
commands issued. -/
def performRestore (cfg : Config) (decipher : String → Bytes → Bytes → Bytes)
    (decompress : String → Bytes → Except String Bytes) (storage : Storage)
    (vms : List VmInfo) (metadata : BackupMetadata)
    (optionsVmName : Option String) :
    Except String (String × Bytes) × List VmEvent :=
  match downloadAndReassembleChunks storage metadata with
  | .error e => (.error e, [])
  | .ok encryptedFile =>
    let decrypted :=
      if metadata.encryption ≠ "none" then
        decryptFile cfg decipher metadata.encryption encryptedFile
      else .ok encryptedFile
    match decrypted with
    | .error e => (.error e, [])
    | .ok decryptedFile =>
      let decompressed :=
        if metadata.compression ≠ "none" then
          decompressFile decompress metadata.compression decryptedFile
        else .ok decryptedFile
      match decompressed with
      | .error e => (.error e, [])
      | .ok decompressedFile =>
        let targetVmName := optionsVmName.getD metadata.vmName
        match getVmInfo vms targetVmName with
        | none =>
          -- `getVmDiskPath` shells out to `limactl show-ssh` on the target,
          -- which fails for a VM that does not exist.
          (.error ("Failed to get VM disk path: " ++ targetVmName), [])
        | some vmInfo =>
          let stopEvents :=
            if vmInfo.status = "Running" then [VmEvent.stop targetVmName] else []
          (.ok (targetVmName ++ "/disk.img", decompressedFile),
            stopEvents ++ [VmEvent.start targetVmName])

/-- `restoreBackup(backupId, options)`: look the backup up in
`this.backups`; a missing record throws `Backup ... not found` before any
VM command; otherwise `performRestore` runs.  (`metadata.status` is never
consulted.)  Operation-record and metrics bookkeeping carry no claim and
are omitted. -/
def restoreBackup (cfg : Config) (decipher : String → Bytes → Bytes → Bytes)
    (decompress : String → Bytes → Except String Bytes) (storage : Storage)
    (vms : List VmInfo) (backups : List (String × BackupMetadata))
    (backupId : String) (optionsVmName : Option String) :
    Except String (String × Bytes) × List VmEvent :=
  match mapGet backups backupId with
  | none => (.error ("Backup " ++ backupId ++ " not found"), [])
  | some metadata =>
    performRestore cfg decipher decompress storage vms metadata optionsVmName

/-- The mutation `checkStuckOperations` applies to a stuck record:
`status = 'timeout'`, `endTime = now`, `error = 'Operation timed out'`. -/
def timeoutOperation (op : Operation) (now : Nat) : Operation :=
  { op with
      status := "timeout"
      endTime := some now
      error := some "Operation timed out" }

/-- `checkStuckOperations()`: walk the operations map and mark every record
that is still `running` with `now - startTime > timeout` as timed out;
nothing else is touched (in particular the underlying pipeline task keeps
running).  `now - startTime` on `Nat` truncates at zero exactly where the
JavaScript difference is negative, and a negative difference never exceeds
the timeout, so the branch conditions agree. -/
def checkStuckOperations (timeout now : Nat) :
    List (String × Operation) → List (String × Operation)
  | [] => []
  | (oid, op) :: rest =>
    if op.status = "running" ∧ timeout < now - op.startTime then
      (oid, timeoutOperation op now) :: checkStuckOperations timeout now rest
    else
      (oid, op) :: checkStuckOperations timeout now rest

/-! ### Concrete fixtures

Sample instantiations of the uninterpreted parameters and sample states,
used to evaluate the embedded code at concrete inputs. -/

/-- Sample instantiation of the SHA-256 parameter. -/
def idHash : Bytes → Bytes := fun b => b

def sampleDecipher : String → Bytes → Bytes → Bytes := fun _ _ b => b

def sampleCipher : String → Bytes → Bytes → Bytes := fun _ _ b => b

def sampleCompress : String → Bytes → Bytes := fun _ b => b

def sampleDecompress : String → Bytes → Except String Bytes := fun _ b => .ok b

/-- A sample configuration with integrity checking enabled and
`retention.daily = 7`. -/
def cfgCheck : Config :=
  { encryptionKey := none, requireIntegrityCheck := true,
    retention := fun t => if t = "daily" then some 7 else none,
    timeout := 3600000, defaultCompression := "none",
    defaultEncryption := "none", chunkSize := 2 }

/-- The sample configuration with integrity checking disabled. -/
def cfgNoCheck : Config := { cfgCheck with requireIntegrityCheck := false }

/-- The chunk list recorded by backing up the 3-byte image `[1, 2, 3]` with
`chunkSize = 2` under backup id `b1`. -/
def sampleChunks : List ChunkRec := (splitAndUpload idHash "b1" 2 [1, 2, 3] []).1

/-- The storage contents after that backup. -/
def sampleStorage : Storage := (splitAndUpload idHash "b1" 2 [1, 2, 3] []).2

/-- The completed metadata record of that backup. -/
def sampleMetadata : BackupMetadata :=
  { id := "b1", vmName := "vm1", type := "manual", createdAt := 0,
    compression := "none", encryption := "none", chunkSize := 2,
    status := "completed", size := 3, chunks := sampleChunks,
    checksum := some [1, 2, 3], integrityVerified := true, completedAt := some 1 }

/-- A metadata record that never finished: `status = 'creating'`, as loaded
back by `loadExistingBackups` from a metadata file on disk. -/
def creatingMetadata : BackupMetadata :=
  { id := "b2", vmName := "vm1", type := "manual", createdAt := 0,
    compression := "none", encryption := "none", chunkSize := 2,
    status := "creating", size := 0, chunks := [],
    checksum := none, integrityVerified := false, completedAt := none }

/-- A running backup `Operation` for VM `vm1`. -/
def runningOp : Operation :=
  { id := "op-b1", type := "backup", vmName := "vm1", backupId := some "b1",
    status := "running", startTime := 0, endTime := none, progress := 0,
    size := 0, error := none }

/-- An expired (8-day-old) daily backup whose status is `failed`. -/
def oldFailedDaily : BackupMetadata :=
  { id := "b3", vmName := "vm1", type := "daily", createdAt := 0,
    compression := "none", encryption := "none", chunkSize := 2,
    status := "failed", size := 4, chunks := [],
    checksum := none, integrityVerified := false, completedAt := none }

/-- A recorded chunk whose checksum does not match the bytes stored for it
(a corrupted upload). -/
def badChunk : ChunkRec :=
  { id := "b1-chunk-000000", backupId := "b1", index := 0, size := 2,
    checksum := [9, 9] }

/-- Storage holding corrupted bytes for `badChunk`'s key. -/
def badStorage : Storage := [(chunkKey "b1" "b1-chunk-000000", [1, 2])]

/-- The second running operation that `createBackupAccept` registers for
`vm1` while `runningOp` is still running. -/
def secondOp : Operation :=
  { id := "op-b2", type := "backup", vmName := "vm1", backupId := some "b2",
    status := "running", startTime := 5, endTime := none, progress := 0,
    size := 0, error := none }

/-- An in-progress `BackupService` record for VM `vm1`. -/
def activeRecord : ServiceBackup :=
  { id := "b1", vmName := "vm1", type := "full", status := "in_progress",
    createdAt := 0, size := 0, progress := 0 }

/-- A service state holding only the expired failed daily backup. -/
def retentionState : ServiceState :=
  { backups := [("b3", oldFailedDaily)], storage := [], storageUsed := 100 }

/-- A service state holding the sample backup and its chunks. -/
def deleteState : ServiceState :=
  { backups := [("b1", sampleMetadata)], storage := sampleStorage,
    storageUsed := 3 }

/-- An empty service state. -/
def emptyState : ServiceState :=
  { backups := [], storage := [], storageUsed := 0 }

/-! ### Helper lemmas -/

theorem mapGet_cons (p : String × α) (m : List (String × α)) (k : String) :
    mapGet (p :: m) k = if p.1 = k then some p.2 else mapGet m k := by
  by_cases h : p.1 = k
  · simp [mapGet, List.find?_cons_of_pos, h]
  · simp [mapGet, List.find?_cons_of_neg, h]

theorem mapErase_cons (p : String × α) (m : List (String × α)) (k : String) :
    mapErase (p :: m) k =
      if p.1 = k then mapErase m k else p :: mapErase m k := by
  by_cases h : p.1 = k <;> simp [mapErase, h]

theorem mapGet_mapErase_self (m : List (String × α)) (k : String) :
    mapGet (mapErase m k) k = none := by
  induction m with
  | nil => rfl
  | cons p rest ih =>
    rw [mapErase_cons]
    by_cases h : p.1 = k
    · simpa [h] using ih
    · rw [if_neg h, mapGet_cons, if_neg h]
      exact ih

theorem mapGet_mapErase_ne (m : List (String × α)) (k k1 : String)
    (h : k1 ≠ k) : mapGet (mapErase m k) k1 = mapGet m k1 := by
  induction m with
  | nil => rfl
  | cons p rest ih =>
    rw [mapErase_cons, mapGet_cons]
    by_cases hp : p.1 = k
    · rw [if_pos hp, ih, if_neg (by rw [hp]; exact fun e => h e.symm)]
    · rw [if_neg hp, mapGet_cons]
      by_cases hp1 : p.1 = k1
      · rw [if_pos hp1, if_pos hp1]
      · rw [if_neg hp1, if_neg hp1, ih]

theorem mapGet_eq_none_iff (m : List (String × α)) (k : String) :
    mapGet m k = none ↔ ∀ p ∈ m, p.1 ≠ k := by
  induction m with
  | nil => simp [mapGet]
  | cons p rest ih =>
    rw [mapGet_cons]
    by_cases hp : p.1 = k
    · simp [hp]
    · simp [hp, ih]

theorem mapErase_of_get_none (m : List (String × α)) (k : String)
    (h : mapGet m k = none) : mapErase m k = m := by
  rw [mapGet_eq_none_iff] at h
  induction m with
  | nil => rfl
  | cons p rest ih =>
    have hp : ¬ p.1 = k := h p (by simp)
    rw [mapErase_cons, if_neg hp, ih (fun q hq => h q (by simp [hq]))]

theorem insertByIndex_perm (c : ChunkRec) (l : List ChunkRec) :
    (insertByIndex c l).Perm (c :: l) := by
  induction l with
  | nil => rfl
  | cons d ds ih =>
    by_cases h : c.index ≤ d.index
    · simp [insertByIndex, h]
    · simp only [insertByIndex, h, if_neg, if_false]
      exact ((ih.cons d).trans (List.Perm.swap c d ds))

theorem sortByIndex_perm (l : List ChunkRec) : (sortByIndex l).Perm l := by
  induction l with
  | nil => rfl
  | cons c cs ih =>
    exact (insertByIndex_perm c (sortByIndex cs)).trans (ih.cons c)

theorem insertByIndex_sorted (c : ChunkRec) (l : List ChunkRec)
    (h : l.Pairwise (fun a b => a.index ≤ b.index)) :
    (insertByIndex c l).Pairwise (fun a b => a.index ≤ b.index) := by
  induction l with
  | nil => simp [insertByIndex]
  | cons d ds ih =>
    rcases List.pairwise_cons.mp h with ⟨hd, hds⟩
    by_cases hcd : c.index ≤ d.index
    · rw [insertByIndex, if_pos hcd]
      refine List.pairwise_cons.mpr ⟨?_, h⟩
      intro e he
      rcases List.mem_cons.mp he with he | he
      · exact he ▸ hcd
      · exact Nat.le_trans hcd (hd e he)
    · rw [insertByIndex, if_neg hcd]
      refine List.pairwise_cons.mpr ⟨?_, ih hds⟩
      intro e he
      have hperm := insertByIndex_perm c ds
      rcases List.mem_cons.mp (hperm.mem_iff.mp he) with he | he
      · exact he ▸ Nat.le_of_lt (Nat.lt_of_not_le hcd)
      · exact hd e he

theorem sortByIndex_sorted (l : List ChunkRec) :
    (sortByIndex l).Pairwise (fun a b => a.index ≤ b.index) := by
  induction l with
  | nil => simp [sortByIndex]
  | cons c cs ih => exact insertByIndex_sorted c (sortByIndex cs) ih

instance : IsAntisymm ChunkRec (fun a b => a.index < b.index) where
  antisymm _ _ h1 h2 := absurd h2 (Nat.lt_asymm h1)

/-- A sorted run with pairwise-distinct indexes is determined by its
multiset: sorting any permutation of `l2` by index yields `l2` itself. -/
theorem sortByIndex_eq_of_perm (l1 l2 : List ChunkRec) (hp : l1.Perm l2)
    (hsorted : l2.Pairwise (fun a b => a.index < b.index)) :
    sortByIndex l1 = l2 := by
  have hperm : (sortByIndex l1).Perm l2 := (sortByIndex_perm l1).trans hp
  have hnd : ((l2.map (fun c => c.index)).Nodup) :=
    (List.pairwise_map.mpr hsorted).imp Nat.ne_of_lt
  have hnd1 : ((sortByIndex l1).map (fun c => c.index)).Nodup :=
    (hperm.map (fun c => c.index)).nodup_iff.mpr hnd
  have hle := sortByIndex_sorted l1
  have hne : (sortByIndex l1).Pairwise (fun a b => a.index ≠ b.index) :=
    List.pairwise_map.mp hnd1
  have hlt : (sortByIndex l1).Pairwise (fun a b => a.index < b.index) := by
    have := hle.and hne
    exact this.imp (fun h => Nat.lt_of_le_of_ne h.1 h.2)
  exact List.eq_of_perm_of_sorted hperm hlt hsorted

theorem splitEveryGo_congr (n : Nat) (hn : n ≠ 0) :
    ∀ (fuel1 fuel2 : Nat) (l : Bytes), l.length ≤ fuel1 → l.length ≤ fuel2 →
      splitEveryGo n fuel1 l = splitEveryGo n fuel2 l := by
  intro fuel1
  induction fuel1 with
  | zero =>
    intro fuel2 l h1 h2
    have : l = [] := List.length_eq_zero.mp (Nat.le_zero.mp h1)
    subst this
    cases fuel2 <;> rfl
  | succ f1 ih =>
    intro fuel2 l h1 h2
    cases l with
    | nil => cases fuel2 <;> rfl
    | cons a l =>
      cases fuel2 with
      | zero => simp at h2
      | succ f2 =>
        simp only [splitEveryGo]
        rw [ih f2 ((a :: l).drop n) ?_ ?_]
        all_goals
          rw [List.length_drop]
          simp only [List.length_cons] at h1 h2 ⊢
          have hn1 : 1 ≤ n := Nat.one_le_iff_ne_zero.mpr hn
          omega

theorem splitEvery_nil (n : Nat) : splitEvery n [] = [] := by
  rw [splitEvery]
  by_cases h : n = 0
  · rw [if_pos h]
  · rw [if_neg h]
    rfl

theorem splitEvery_cons_eq (n : Nat) (l : Bytes) (hn : n ≠ 0) (hl : l ≠ []) :
    splitEvery n l = l.take n :: splitEvery n (l.drop n) := by
  rw [splitEvery, splitEvery, if_neg hn, if_neg hn]
  cases l with
  | nil => exact absurd rfl hl
  | cons a l =>
    simp only [List.length_cons, splitEveryGo]
    rw [splitEveryGo_congr n hn l.length ((a :: l).drop n).length ((a :: l).drop n)
      ?_ (Nat.le_refl _)]
    rw [List.length_drop]
    simp only [List.length_cons]
    omega

theorem splitEvery_eq_nil_iff (n : Nat) (l : Bytes) (hn : n ≠ 0) :
    splitEvery n l = [] ↔ l = [] := by
  constructor
  · intro h
    by_contra hl
    rw [splitEvery_cons_eq n l hn hl] at h
    exact List.cons_ne_nil _ _ h
  · intro h
    rw [h, splitEvery_nil]

/-- Every piece cut by `splitEvery` except possibly the last has length
exactly `n`. -/
theorem splitEvery_dropLast_length (n : Nat) (hn : n ≠ 0) (l : Bytes) :
    ∀ p ∈ (splitEvery n l).dropLast, p.length = n := by
  have main : ∀ (k : Nat) (l : Bytes), l.length ≤ k →
      ∀ p ∈ (splitEvery n l).dropLast, p.length = n := by
    intro k
    induction k with
    | zero =>
      intro l hl p hp
      have : l = [] := List.length_eq_zero.mp (Nat.le_zero.mp hl)
      rw [this, splitEvery_nil] at hp
      simp at hp
    | succ k ih =>
      intro l hl p hp
      by_cases hnil : l = []
      · rw [hnil, splitEvery_nil] at hp
        simp at hp
      · rw [splitEvery_cons_eq n l hn hnil] at hp
        by_cases hrest : splitEvery n (l.drop n) = []
        · rw [hrest] at hp
          simp at hp
        · rw [List.dropLast_cons_of_ne_nil hrest] at hp
          rcases List.mem_cons.mp hp with hp | hp
          · have hd : l.drop n ≠ [] := by
              intro hd
              exact hrest (by rw [hd, splitEvery_nil])
            have hlen : n < l.length := by
              by_contra hle
              exact hd (List.drop_eq_nil_of_le (Nat.le_of_not_lt hle))
            rw [hp, List.length_take]
            exact Nat.min_eq_left (Nat.le_of_lt hlen)
          · refine ih (l.drop n) ?_ p hp
            rw [List.length_drop]
            have h1 : 1 ≤ n := Nat.one_le_iff_ne_zero.mpr hn
            omega
  exact main l.length l (Nat.le_refl _)

theorem splitAndUploadGo_map_index (hash : Bytes → Bytes) (bid : String) :
    ∀ (ps : List Bytes) (i : Nat) (st : Storage),
      ((splitAndUploadGo hash bid i ps st).1).map (fun c => c.index) =
        List.range' i ps.length := by
  intro ps
  induction ps with
  | nil => intro i st; rfl
  | cons piece rest ih =>
    intro i st
    simp only [splitAndUploadGo, List.map_cons, List.length_cons, List.range'_succ]
    rw [ih]

theorem splitAndUploadGo_forall₂ (hash : Bytes → Bytes) (bid : String) :
    ∀ (ps : List Bytes) (i : Nat) (st : Storage),
      List.Forall₂
        (fun p c => c.size = p.length ∧ c.checksum = hash p ∧
          c.backupId = bid ∧ c.id = chunkId bid c.index)
        ps ((splitAndUploadGo hash bid i ps st).1) := by
  intro ps
  induction ps with
  | nil => intro i st; exact List.Forall₂.nil
  | cons piece rest ih =>
    intro i st
    exact List.Forall₂.cons (by simp) (ih (i + 1) _)

theorem splitAndUploadGo_index_lower (hash : Bytes → Bytes) (bid : String) :
    ∀ (ps : List Bytes) (i : Nat) (st : Storage),
      ∀ c ∈ (splitAndUploadGo hash bid i ps st).1, i ≤ c.index := by
  intro ps
  induction ps with
  | nil => intro i st c hc; simp [splitAndUploadGo] at hc
  | cons piece rest ih =>
    intro i st c hc
    rcases List.mem_cons.mp hc with hc | hc
    · rw [hc]
    · exact Nat.le_trans (Nat.le_succ i) (ih (i + 1) _ c hc)

theorem splitAndUploadGo_index_pairwise (hash : Bytes → Bytes) (bid : String) :
    ∀ (ps : List Bytes) (i : Nat) (st : Storage),
      ((splitAndUploadGo hash bid i ps st).1).Pairwise
        (fun a b => a.index < b.index) := by
  intro ps
  induction ps with
  | nil => intro i st; exact List.Pairwise.nil
  | cons piece rest ih =>
    intro i st
    refine List.pairwise_cons.mpr ⟨?_, ih (i + 1) _⟩
    intro c hc
    exact Nat.lt_of_lt_of_le (Nat.lt_succ_self i)
      (splitAndUploadGo_index_lower hash bid rest (i + 1) _ c hc)

theorem splitAndUploadGo_mem_id (hash : Bytes → Bytes) (bid : String) :
    ∀ (ps : List Bytes) (i : Nat) (st : Storage),
      ∀ c ∈ (splitAndUploadGo hash bid i ps st).1,
        c.id = chunkId bid c.index ∧ c.backupId = bid := by
  intro ps
  induction ps with
  | nil => intro i st c hc; simp [splitAndUploadGo] at hc
  | cons piece rest ih =>
    intro i st c hc
    rcases List.mem_cons.mp hc with hc | hc
    · rw [hc]
      exact ⟨rfl, rfl⟩
    · exact ih (i + 1) _ c hc

theorem splitAndUploadGo_map_size (hash : Bytes → Bytes) (bid : String) :
    ∀ (ps : List Bytes) (i : Nat) (st : Storage),
      ((splitAndUploadGo hash bid i ps st).1).map (fun c => c.size) =
        ps.map (fun p => p.length) := by
  intro ps
  induction ps with
  | nil => intro i st; rfl
  | cons piece rest ih =>
    intro i st
    simp only [splitAndUploadGo, List.map_cons]
    rw [ih]

theorem verifyChunks_eq_true_iff (hash : Bytes → Bytes) (storage : Storage) :
    ∀ chunks : List ChunkRec,
      verifyChunks hash storage chunks = true ↔
        ∀ c ∈ chunks, ∃ data,
          downloadChunk storage c.backupId c.id = .ok data ∧
          hash data = c.checksum := by
  intro chunks
  induction chunks with
  | nil => simp [verifyChunks]
  | cons c cs ih =>
    cases hdc : downloadChunk storage c.backupId c.id with
    | error e =>
      simp only [verifyChunks, hdc]
      constructor
      · intro h
        exact absurd h (by simp)
      · intro h
        rcases h c (by simp) with ⟨data, hdata, _⟩
        rw [hdc] at hdata
        exact absurd hdata (by simp)
    | ok data =>
      simp only [verifyChunks, hdc]
      by_cases hck : hash data ≠ c.checksum
      · rw [if_pos hck]
        constructor
        · intro h
          exact absurd h (by simp)
        · intro h
          rcases h c (by simp) with ⟨data1, hdata1, hck1⟩
          rw [hdc] at hdata1
          cases hdata1
          exact absurd hck1 hck
      · rw [if_neg hck]
        rw [Decidable.not_not] at hck
        rw [ih]
        constructor
        · intro h c1 hc1
          rcases List.mem_cons.mp hc1 with hc1 | hc1
          · exact hc1 ▸ ⟨data, hdc, hck⟩
          · exact h c1 hc1
        · intro h c1 hc1
          exact h c1 (List.mem_cons_of_mem c hc1)

theorem foldl_deleteChunk_get (bid : String) :
    ∀ (chunks : List ChunkRec) (storage : Storage) (key : String),
      mapGet (chunks.foldl (fun s c => deleteChunk s bid c.id) storage) key =
        if ∃ c ∈ chunks, key = chunkKey bid c.id then none
        else mapGet storage key := by
  intro chunks
  induction chunks with
  | nil => intro storage key; simp
  | cons c cs ih =>
    intro storage key
    simp only [List.foldl_cons]
    rw [ih]
    by_cases h1 : ∃ c1 ∈ cs, key = chunkKey bid c1.id
    · rw [if_pos h1, if_pos ?_]
      rcases h1 with ⟨c1, hc1, hk⟩
      exact ⟨c1, List.mem_cons_of_mem c hc1, hk⟩
    · rw [if_neg h1]
      by_cases h2 : key = chunkKey bid c.id
      · rw [if_pos ⟨c, by simp, h2⟩, h2, deleteChunk, mapGet_mapErase_self]
      · rw [if_neg ?_, deleteChunk, mapGet_mapErase_ne _ _ _ h2]
        intro hcontra
        rcases hcontra with ⟨c1, hc1, hk⟩
        rcases List.mem_cons.mp hc1 with hc1 | hc1
        · exact h2 (hc1 ▸ hk)
        · exact h1 ⟨c1, hc1, hk⟩

/-- Both branches of the guarded `deleteBackup` call in the retention loop
leave the backups map without any binding for the deleted id. -/
theorem retentionStep_backups (st : ServiceState) (bid : String) :
    (match deleteBackup st bid with
      | .ok s1 => s1
      | .error _ => st).backups = mapErase st.backups bid := by
  cases h : mapGet st.backups bid with
  | none =>
    simp only [deleteBackup, h]
    exact (mapErase_of_get_none st.backups bid h).symm
  | some m =>
    simp only [deleteBackup, h]

theorem retention_foldl_backups :
    ∀ (ids : List String) (st : ServiceState),
      ((ids.foldl
        (fun s bid =>
          match deleteBackup s bid with
          | .ok s1 => s1
          | .error _ => s) st).backups) =
        st.backups.filter (fun p => decide (¬ p.1 ∈ ids)) := by
  intro ids
  induction ids with
  | nil => intro st; simp
  | cons bid ids ih =>
    intro st
    simp only [List.foldl_cons]
    rw [ih, retentionStep_backups, mapErase, List.filter_filter]
    refine List.filter_congr ?_
    intro p _
    simp only [List.mem_cons]
    by_cases h1 : p.1 = bid <;> by_cases h2 : p.1 ∈ ids <;> simp [h1, h2]

/-! ### Claims -/

deriving instance DecidableEq for Except

/-- C1: evaluation of the code at the failing input.  The backup pipeline
stores the 3-byte disk image `[1, 2, 3]` (chunk size 2, backup id `b1`)
under the keys `backups/b1/chunks/...`, but `downloadAndReassembleChunks`
passes `metadata.backupId` — a field that does not exist on the metadata
object, hence `undefined` — to `downloadChunk`, so restore looks chunks up
under `backups/undefined/chunks/...` and fails before reconstructing any
bytes: the round-trip claimed by the spec never completes, let alone
byte-identically. -/
theorem c1_restore_key_mismatch :
    mapGet sampleStorage (chunkKey "b1" "b1-chunk-000000") = some [1, 2] ∧
    mapGet sampleStorage
      (chunkKey (jsStringOf (metadataBackupIdField sampleMetadata))
        "b1-chunk-000000") = none ∧
    downloadAndReassembleChunks sampleStorage sampleMetadata =
      .error "Chunk not found: backups/undefined/chunks/b1-chunk-000000" ∧
    performRestore cfgCheck sampleDecipher sampleDecompress sampleStorage
      [{ name := "vm1", status := "Running" }] sampleMetadata none =
      (.error "Chunk not found: backups/undefined/chunks/b1-chunk-000000",
        []) := by
  decide

/-- C2 counterexample: with `requireIntegrityCheck` disabled,
`verifyBackupIntegrity` returns `true` — even over a chunk whose stored
bytes do not re-hash to the recorded checksum — and the completion path
then records `integrityVerified = true`, contradicting the claim that the
flag is left `false` in that mode. -/
theorem c2_counterexample :
    cfgNoCheck.requireIntegrityCheck = false ∧
    verifyBackupIntegrity idHash cfgNoCheck badStorage [badChunk] = true ∧
    downloadChunk badStorage badChunk.backupId badChunk.id = .ok [1, 2] ∧
    idHash [1, 2] ≠ badChunk.checksum ∧
    (completeBackupMetadata creatingMetadata
      { size := 2, chunks := [badChunk], checksum := [1, 2],
        integrityVerified :=
          verifyBackupIntegrity idHash cfgNoCheck badStorage [badChunk] }
      5).integrityVerified = true := by
  decide

/-- C2 as amended: when `requireIntegrityCheck` is false,
`verifyBackupIntegrity` returns `true` without downloading anything, so
completed backups are marked `integrityVerified = true` unverified; when
the check is enabled, the result is `true` exactly when every recorded
chunk re-downloads successfully and re-hashes to its recorded checksum. -/
theorem c2_amended_integrity_flag (hash : Bytes → Bytes) (cfg : Config)
    (storage : Storage) (chunks : List ChunkRec) :
    (cfg.requireIntegrityCheck = false →
      verifyBackupIntegrity hash cfg storage chunks = true) ∧
    (cfg.requireIntegrityCheck = true →
      (verifyBackupIntegrity hash cfg storage chunks = true ↔
        ∀ c ∈ chunks, ∃ data,
          downloadChunk storage c.backupId c.id = .ok data ∧
          hash data = c.checksum)) := by
  constructor
  · intro h
    simp [verifyBackupIntegrity, h]
  · intro h
    rw [verifyBackupIntegrity, if_neg (by simp [h])]
    exact verifyChunks_eq_true_iff hash storage chunks

/-- Witness for `c2_amended_integrity_flag` at a concrete input. -/
theorem c2_amended_integrity_flag_witness :
    (cfgCheck.requireIntegrityCheck = false →
      verifyBackupIntegrity idHash cfgCheck badStorage [badChunk] = true) ∧
    (cfgCheck.requireIntegrityCheck = true →
      (verifyBackupIntegrity idHash cfgCheck badStorage [badChunk] = true ↔
        ∀ c ∈ [badChunk], ∃ data,
          downloadChunk badStorage c.backupId c.id = .ok data ∧
          idHash data = c.checksum)) :=
  c2_amended_integrity_flag idHash cfgCheck badStorage [badChunk]

/-- C3 counterexample: `restoreBackup` performs no status check, so a
metadata record with `status = 'creating'` is restored like any other —
no `BackupIncompleteError` is raised, the running target VM is stopped and
started, and its disk image is overwritten (here with the empty
reassembly of the record's empty chunk list). -/
theorem c3_counterexample :
    creatingMetadata.status = "creating" ∧
    restoreBackup cfgCheck sampleDecipher sampleDecompress []
      [{ name := "vm1", status := "Running" }] [("b2", creatingMetadata)]
      "b2" none =
      (.ok ("vm1/disk.img", []),
        [VmEvent.stop "vm1", VmEvent.start "vm1"]) := by
  decide

/-- C3 as amended: `restoreBackup` on a backup id with no metadata record
rejects with `Backup ... not found` before any VM control operation; it
performs no status check at all — its behavior is independent of
`metadata.status`, so a non-completed record is restored rather than
rejected, and no `BackupIncompleteError` exists in the code. -/
theorem c3_amended_restore_validation :
    (∀ (cfg : Config) (dec : String → Bytes → Bytes → Bytes)
        (decomp : String → Bytes → Except String Bytes) (storage : Storage)
        (vms : List VmInfo) (backups : List (String × BackupMetadata))
        (bid : String) (opt : Option String),
      mapGet backups bid = none →
        restoreBackup cfg dec decomp storage vms backups bid opt =
          (.error ("Backup " ++ bid ++ " not found"), [])) ∧
    (∀ (cfg : Config) (dec : String → Bytes → Bytes → Bytes)
        (decomp : String → Bytes → Except String Bytes) (storage : Storage)
        (vms : List VmInfo) (m : BackupMetadata) (s : String)
        (opt : Option String),
      performRestore cfg dec decomp storage vms { m with status := s } opt =
        performRestore cfg dec decomp storage vms m opt) := by
  constructor
  · intro cfg dec decomp storage vms backups bid opt h
    simp [restoreBackup, h]
  · intro cfg dec decomp storage vms m s opt
    rfl

/-- Witness for `c3_amended_restore_validation` at a concrete input. -/
theorem c3_amended_restore_validation_witness :
    restoreBackup cfgCheck sampleDecipher sampleDecompress []
      [] [] "nope" none = (.error ("Backup " ++ "nope" ++ " not found"), []) :=
  c3_amended_restore_validation.1 cfgCheck sampleDecipher sampleDecompress
    [] [] [] "nope" none rfl

/-- C4 counterexample: the orchestrator's `createBackup` performs no per-VM
exclusivity check — with a running backup operation for `vm1` already
registered, a second request for `vm1` is accepted (no `ConflictError`) and
a second running backup operation is registered alongside the first. -/
theorem c4_counterexample :
    runningOp.status = "running" ∧ runningOp.type = "backup" ∧
    runningOp.vmName = "vm1" ∧
    createBackupAccept [{ name := "vm1", status := "Running" }]
      [("op-b1", runningOp)] "vm1" "b2" 5 =
      .ok (secondOp, [("op-b1", runningOp), ("op-b2", secondOp)]) := by
  decide

/-- C4 as amended: the overlapping `BackupService.createBackup`
implementation does enforce per-VM exclusivity — a request for a VM that
already has an `in_progress` backup record fails with
`Backup already in progress for VM ...` and registers nothing, leaving the
first backup unaffected; the orchestrator embedded in the backup README
performs no such check (see the counterexample). -/
theorem c4_amended_exclusivity (vms : List VmInfo)
    (activeBackups : List (String × ServiceBackup))
    (vmName backupId btype : String) (now : Nat)
    (hvm : (getVmInfo vms vmName).isSome)
    (p : String × ServiceBackup) (hp : p ∈ activeBackups)
    (hname : p.2.vmName = vmName) (hst : p.2.status = "in_progress") :
    serviceCreateBackup vms activeBackups vmName backupId btype now =
      .error ("Backup already in progress for VM " ++ vmName) := by
  rw [serviceCreateBackup]
  cases h : getVmInfo vms vmName with
  | none => rw [h] at hvm; exact absurd hvm (by simp)
  | some vi =>
    simp only
    rw [if_pos]
    exact List.any_eq_true.mpr ⟨p, hp, by simp [hname, hst]⟩

/-- Witness for `c4_amended_exclusivity` at a concrete input. -/
theorem c4_amended_exclusivity_witness :
    serviceCreateBackup [{ name := "vm1", status := "Running" }]
      [("b1", activeRecord)] "vm1" "b2" "full" 9 =
      .error ("Backup already in progress for VM " ++ "vm1") :=
  c4_amended_exclusivity [{ name := "vm1", status := "Running" }]
    [("b1", activeRecord)] "vm1" "b2" "full" 9 (by decide)
    ("b1", activeRecord) (by simp) rfl rfl

/-- C5: for every backup produced by `splitAndUpload` with positive chunk
size, the recorded chunk list has contiguous `index` values starting at 0;
each chunk's `id` is `{backupId}-chunk-{index zero-padded to 6}` and its
`backupId` field is the backup id; each chunk's `size` and `checksum` are
the length and SHA-256 of that chunk's bytes; every chunk except possibly
the last has size exactly the chunk size; and reassembly depends only on
the multiset of recorded chunks — sorting any permutation by `index`
recovers the recorded order, so `downloadAndReassembleChunks` is
independent of upload order. -/
theorem c5_chunk_invariants (hash : Bytes → Bytes) (bid : String) (n : Nat)
    (file : Bytes) (st : Storage) (hn : 0 < n) :
    ((splitAndUpload hash bid n file st).1).map (fun c => c.index) =
      List.range ((splitAndUpload hash bid n file st).1).length ∧
    (∀ c ∈ (splitAndUpload hash bid n file st).1,
      c.id = chunkId bid c.index ∧ c.backupId = bid) ∧
    List.Forall₂ (fun p c => c.size = p.length ∧ c.checksum = hash p)
      (splitEvery n file) ((splitAndUpload hash bid n file st).1) ∧
    (∀ c ∈ ((splitAndUpload hash bid n file st).1).dropLast, c.size = n) ∧
    (∀ q : List ChunkRec, q.Perm (splitAndUpload hash bid n file st).1 →
      sortByIndex q = (splitAndUpload hash bid n file st).1) ∧
    (∀ (storage : Storage) (m : BackupMetadata) (q : List ChunkRec),
      q.Perm (splitAndUpload hash bid n file st).1 →
      downloadAndReassembleChunks storage { m with chunks := q } =
        downloadAndReassembleChunks storage
          { m with chunks := (splitAndUpload hash bid n file st).1 }) := by
  have hmapidx := splitAndUploadGo_map_index hash bid (splitEvery n file) 0 st
  have hlen : ((splitAndUpload hash bid n file st).1).length =
      (splitEvery n file).length := by
    have := congrArg List.length hmapidx
    simpa [splitAndUpload] using this
  have hsortfix : ∀ q : List ChunkRec,
      q.Perm (splitAndUpload hash bid n file st).1 →
      sortByIndex q = (splitAndUpload hash bid n file st).1 := by
    intro q hq
    exact sortByIndex_eq_of_perm q _ hq
      (splitAndUploadGo_index_pairwise hash bid (splitEvery n file) 0 st)
  refine ⟨?_, ?_, ?_, ?_, hsortfix, ?_⟩
  · rw [splitAndUpload] at hlen ⊢
    rw [hmapidx, hlen, List.range_eq_range']
  · intro c hc
    exact splitAndUploadGo_mem_id hash bid (splitEvery n file) 0 st c hc
  · exact (splitAndUploadGo_forall₂ hash bid (splitEvery n file) 0 st).imp
      (fun _ _ h => ⟨h.1, h.2.1⟩)
  · intro c hc
    have hmapsize := splitAndUploadGo_map_size hash bid (splitEvery n file) 0 st
    have hcsize : c.size ∈
        (((splitAndUpload hash bid n file st).1).dropLast).map
          (fun c => c.size) :=
      List.mem_map_of_mem _ hc
    rw [List.map_dropLast] at hcsize
    rw [splitAndUpload] at hcsize
    rw [hmapsize, ← List.map_dropLast] at hcsize
    rcases List.mem_map.mp hcsize with ⟨p, hp, hplen⟩
    rw [← hplen]
    exact splitEvery_dropLast_length n (Nat.pos_iff_ne_zero.mp hn) file p hp
  · intro storage m q hq
    simp only [downloadAndReassembleChunks, metadataBackupIdField]
    rw [hsortfix q hq, hsortfix _ (List.Perm.refl _)]

/-- Witness for `c5_chunk_invariants` at a concrete input: the 3-byte
image `[1, 2, 3]` with chunk size 2. -/
theorem c5_chunk_invariants_witness :
    0 < 2 ∧
    (((splitAndUpload idHash "b" 2 [1, 2, 3] []).1).map (fun c => c.index) =
      List.range ((splitAndUpload idHash "b" 2 [1, 2, 3] []).1).length ∧
    (∀ c ∈ (splitAndUpload idHash "b" 2 [1, 2, 3] []).1,
      c.id = chunkId "b" c.index ∧ c.backupId = "b") ∧
    List.Forall₂ (fun p c => c.size = p.length ∧ c.checksum = idHash p)
      (splitEvery 2 [1, 2, 3]) ((splitAndUpload idHash "b" 2 [1, 2, 3] []).1) ∧
    (∀ c ∈ ((splitAndUpload idHash "b" 2 [1, 2, 3] []).1).dropLast,
      c.size = 2) ∧
    (∀ q : List ChunkRec, q.Perm (splitAndUpload idHash "b" 2 [1, 2, 3] []).1 →
      sortByIndex q = (splitAndUpload idHash "b" 2 [1, 2, 3] []).1) ∧
    (∀ (storage : Storage) (m : BackupMetadata) (q : List ChunkRec),
      q.Perm (splitAndUpload idHash "b" 2 [1, 2, 3] []).1 →
      downloadAndReassembleChunks storage { m with chunks := q } =
        downloadAndReassembleChunks storage
          { m with chunks := (splitAndUpload idHash "b" 2 [1, 2, 3] []).1 })) :=
  ⟨by decide, c5_chunk_invariants idHash "b" 2 [1, 2, 3] [] (by decide)⟩

/-- C6 counterexample: `applyRetentionPolicy` never consults `status` —
an 8-day-old daily backup whose status is `failed` (not `completed`) is
deleted by a daily retention pass with `retention.daily = 7`, where the
claim says only completed backups are deleted. -/
theorem c6_counterexample :
    oldFailedDaily.status = "failed" ∧ oldFailedDaily.type = "daily" ∧
    cfgCheck.retention "daily" = some 7 ∧
    (applyRetentionPolicy cfgCheck (8 * 86400000) retentionState
      "daily").backups = [] := by
  decide

/-- C6 as amended: a retention pass for class `P` with configured retention
`N > 0` days deletes, via `deleteBackup`, exactly the metadata records of
`type = P` whose `createdAt` is strictly older than `now - N` days,
regardless of status; every backup of a different type or with a newer
`createdAt` is retained. -/
theorem c6_amended_retention (cfg : Config) (now : Nat) (st : ServiceState)
    (btype : String) (days : Nat) (hdays : cfg.retention btype = some days)
    (h0 : days ≠ 0)
    (hnodup : (st.backups.map (fun p => p.1)).Nodup) :
    ∀ p, p ∈ (applyRetentionPolicy cfg now st btype).backups ↔
      p ∈ st.backups ∧
        ¬(p.2.type = btype ∧ p.2.createdAt < now - days * 86400000) := by
  intro p
  rw [applyRetentionPolicy]
  simp only [hdays]
  rw [if_neg h0, retention_foldl_backups, List.mem_filter]
  constructor
  · rintro ⟨hmem, hflt⟩
    refine ⟨hmem, ?_⟩
    intro hpred
    simp only [decide_eq_true_eq] at hflt
    exact hflt (List.mem_map.mpr ⟨p,
      List.mem_filter.mpr ⟨hmem, by simp [hpred.1, hpred.2]⟩, rfl⟩)
  · rintro ⟨hmem, hnpred⟩
    refine ⟨hmem, ?_⟩
    simp only [decide_eq_true_eq]
    intro hin
    rcases List.mem_map.mp hin with ⟨q, hq, hq1⟩
    rcases List.mem_filter.mp hq with ⟨hqmem, hqpred⟩
    have hqp : q = p := List.inj_on_of_nodup_map hnodup hqmem hmem hq1
    rw [hqp] at hqpred
    exact hnpred (by simpa using hqpred)

/-- Witness for `c6_amended_retention` at a concrete input. -/
theorem c6_amended_retention_witness :
    ("b3", oldFailedDaily) ∈
        (applyRetentionPolicy cfgCheck (8 * 86400000) retentionState
          "daily").backups ↔
      ("b3", oldFailedDaily) ∈ retentionState.backups ∧
        ¬(("b3", oldFailedDaily).2.type = "daily" ∧
          ("b3", oldFailedDaily).2.createdAt <
            8 * 86400000 - 7 * 86400000) :=
  c6_amended_retention cfgCheck (8 * 86400000) retentionState
    "daily" 7 rfl (by decide) (by decide) ("b3", oldFailedDaily)

/-- C7: `deleteBackup` on an id with no metadata record (including an id
already deleted) fails with `Backup ... not found`; on an existing id it
always succeeds (chunk deletion is per-chunk best-effort and an absent key
is a no-op, so nothing aborts the delete), removes every recorded chunk
key from storage while leaving every other key intact, removes the
metadata record while leaving every other record intact, and decrements
the storage-used metric by the deleted backup’s size; a second delete of
the same id then fails with `Backup ... not found`. -/
theorem c7_delete_backup (st : ServiceState) (bid : String) :
    (mapGet st.backups bid = none →
      deleteBackup st bid = .error ("Backup " ++ bid ++ " not found")) ∧
    (∀ m, mapGet st.backups bid = some m →
      ∃ st1, deleteBackup st bid = .ok st1 ∧
        mapGet st1.backups bid = none ∧
        (∀ k, k ≠ bid → mapGet st1.backups k = mapGet st.backups k) ∧
        st1.storageUsed = st.storageUsed - m.size ∧
        (∀ c ∈ m.chunks, mapGet st1.storage (chunkKey bid c.id) = none) ∧
        (∀ key, (∀ c ∈ m.chunks, key ≠ chunkKey bid c.id) →
          mapGet st1.storage key = mapGet st.storage key) ∧
        deleteBackup st1 bid = .error ("Backup " ++ bid ++ " not found")) := by
  constructor
  · intro h
    simp [deleteBackup, h]
  · intro m h
    refine ⟨_, by rw [deleteBackup, h], ?_, ?_, rfl, ?_, ?_, ?_⟩
    · exact mapGet_mapErase_self st.backups bid
    · intro k hk
      exact mapGet_mapErase_ne st.backups bid k hk
    · intro c hc
      rw [foldl_deleteChunk_get bid m.chunks st.storage (chunkKey bid c.id),
        if_pos ⟨c, hc, rfl⟩]
    · intro key hkey
      rw [foldl_deleteChunk_get bid m.chunks st.storage key, if_neg ?_]
      rintro ⟨c, hc, hk⟩
      exact hkey c hc hk
    · rw [deleteBackup]
      rw [mapGet_mapErase_self st.backups bid]

/-- Witness for `c7_delete_backup` at a concrete input: the not-found
branch on an empty state and the success branch on `sampleMetadata`. -/
theorem c7_delete_backup_witness :
    deleteBackup emptyState "b9" =
      .error ("Backup " ++ "b9" ++ " not found") ∧
    (∃ st1, deleteBackup deleteState "b1" = .ok st1 ∧
      mapGet st1.backups "b1" = none ∧
      (∀ k, k ≠ "b1" →
        mapGet st1.backups k = mapGet deleteState.backups k) ∧
      st1.storageUsed = deleteState.storageUsed - sampleMetadata.size ∧
      (∀ c ∈ sampleMetadata.chunks,
        mapGet st1.storage (chunkKey "b1" c.id) = none) ∧
      (∀ key, (∀ c ∈ sampleMetadata.chunks, key ≠ chunkKey "b1" c.id) →
        mapGet st1.storage key = mapGet deleteState.storage key) ∧
      deleteBackup st1 "b1" = .error ("Backup " ++ "b1" ++ " not found")) :=
  ⟨(c7_delete_backup emptyState "b9").1 rfl,
   (c7_delete_backup deleteState "b1").2 sampleMetadata rfl⟩

/-- C8: when no encryption key is configured, `encryptFile` and
`decryptFile` return their input file unchanged and raise no error, and
steps 3–4 of the backup pipeline proceed unencrypted (the transform output
is exactly the compression output) rather than failing. -/
theorem c8_no_key_passthrough (cfg : Config)
    (cipher decipher : String → Bytes → Bytes → Bytes)
    (compress : String → Bytes → Bytes) (iv file : Bytes) (et : String)
    (m : BackupMetadata) (hkey : cfg.encryptionKey = none) :
    encryptFile cfg cipher iv et file = .ok file ∧
    decryptFile cfg decipher et file = .ok file ∧
    backupTransform cfg compress cipher iv m file =
      .ok (if m.compression ≠ "none" then
            compressFile compress m.compression file
          else file) := by
  refine ⟨?_, ?_, ?_⟩
  · rw [encryptFile, hkey]
  · rw [decryptFile, hkey]
  · rw [backupTransform]
    by_cases hc : m.compression ≠ "none" <;>
      by_cases he : m.encryption ≠ "none" <;>
        simp [hc, he, encryptFile, hkey] <;> rfl

/-- Witness for `c8_no_key_passthrough` at a concrete input. -/
theorem c8_no_key_passthrough_witness :
    encryptFile cfgCheck sampleCipher [0] "aes256" [1, 2] = .ok [1, 2] ∧
    decryptFile cfgCheck sampleDecipher "aes256" [1, 2] = .ok [1, 2] ∧
    backupTransform cfgCheck sampleCompress sampleCipher [0] sampleMetadata
      [1, 2] =
      .ok (if sampleMetadata.compression ≠ "none" then
            compressFile sampleCompress sampleMetadata.compression [1, 2]
          else [1, 2]) :=
  c8_no_key_passthrough cfgCheck sampleCipher sampleDecipher sampleCompress
    [0] [1, 2] "aes256" sampleMetadata rfl

/-- C9: a sweep run of `checkStuckOperations` rewrites exactly those
operation records that are still `running` with `startTime` more than the
configured timeout before `now` — each becomes the terminal
`timeoutOperation` form, with `status = 'timeout'`, `endTime = now` and
the error message recorded — and leaves every other record unchanged; the
keys of the map are untouched and nothing outside the operations map is
consulted or modified (the sweep takes and returns only the map, so the
underlying pipeline task is not killed). -/
theorem c9_stuck_sweep (timeout now : Nat)
    (ops : List (String × Operation)) :
    List.Forall₂
      (fun p q => p.1 = q.1 ∧
        (p.2.status = "running" ∧ timeout < now - p.2.startTime →
          q.2 = timeoutOperation p.2 now ∧ q.2.status = "timeout" ∧
          q.2.endTime = some now ∧ q.2.error = some "Operation timed out") ∧
        (¬(p.2.status = "running" ∧ timeout < now - p.2.startTime) →
          q.2 = p.2))
      ops (checkStuckOperations timeout now ops) := by
  induction ops with
  | nil => exact List.Forall₂.nil
  | cons p rest ih =>
    rcases p with ⟨oid, op⟩
    by_cases h : op.status = "running" ∧ timeout < now - op.startTime
    · rw [checkStuckOperations, if_pos h]
      refine List.Forall₂.cons ⟨rfl, ?_, ?_⟩ ih
      · intro _
        exact ⟨rfl, rfl, rfl, rfl⟩
      · intro hcon
        exact absurd h hcon
    · rw [checkStuckOperations, if_neg h]
      refine List.Forall₂.cons ⟨rfl, ?_, fun _ => rfl⟩ ih
      intro hcon
      exact absurd hcon h

/-- Witness for `c9_stuck_sweep` at a concrete input: one stuck running
operation and one fresh one. -/
theorem c9_stuck_sweep_witness :
    List.Forall₂
      (fun (p : String × Operation) (q : String × Operation) => p.1 = q.1 ∧
        (p.2.status = "running" ∧ 10 < 100 - p.2.startTime →
          q.2 = timeoutOperation p.2 100 ∧ q.2.status = "timeout" ∧
          q.2.endTime = some 100 ∧ q.2.error = some "Operation timed out") ∧
        (¬(p.2.status = "running" ∧ 10 < 100 - p.2.startTime) →
          q.2 = p.2))
      [("op-b1", runningOp), ("op-b2", secondOp)]
      (checkStuckOperations 10 100 [("op-b1", runningOp), ("op-b2", secondOp)]) :=
  c9_stuck_sweep 10 100 [("op-b1", runningOp), ("op-b2", secondOp)]

/-- C10: when the integrity check is enabled and some recorded chunk either
fails to download or re-hashes to something other than its recorded
checksum, `verifyBackupIntegrity` returns `false` (it is a total,
`Bool`-valued function — download failures are caught, never re-raised),
and the completion path of `createBackup` still marks the metadata
`completed` with `integrityVerified = false` and the operation `completed`
with its `error` field untouched: an integrity failure never fails the
backup operation and never surfaces as an error. -/
theorem c10_integrity_failure_soft (hash : Bytes → Bytes) (cfg : Config)
    (storage : Storage) (chunks : List ChunkRec)
    (hreq : cfg.requireIntegrityCheck = true) (c : ChunkRec)
    (hc : c ∈ chunks)
    (hbad : ∀ data, downloadChunk storage c.backupId c.id = .ok data →
      hash data ≠ c.checksum) :
    verifyBackupIntegrity hash cfg storage chunks = false ∧
    (∀ (m : BackupMetadata) (r : BackupResult) (t : Nat),
      (completeBackupMetadata m r t).status = "completed") ∧
    (∀ (m : BackupMetadata) (sz : Nat) (ck : Bytes) (t : Nat),
      (completeBackupMetadata m
        { size := sz, chunks := chunks, checksum := ck,
          integrityVerified :=
            verifyBackupIntegrity hash cfg storage chunks }
        t).integrityVerified = false) ∧
    (∀ (op : Operation) (t sz : Nat),
      (completeOperation op t sz).status = "completed" ∧
      (completeOperation op t sz).error = op.error) ∧
    (∀ (m : BackupMetadata) (op : Operation) (finalBytes : Bytes) (t : Nat),
      ((createBackupSuccess hash cfg storage m op finalBytes t).1).status =
        "completed" ∧
      ((createBackupSuccess hash cfg storage m op finalBytes t).2.1).status =
        "completed" ∧
      ((createBackupSuccess hash cfg storage m op finalBytes t).2.1).error =
        op.error) := by
  have hfalse : verifyBackupIntegrity hash cfg storage chunks = false := by
    rw [verifyBackupIntegrity, if_neg (by simp [hreq])]
    rw [Bool.eq_false_iff]
    intro htrue
    rcases (verifyChunks_eq_true_iff hash storage chunks).mp htrue c hc with
      ⟨data, hdata, hhash⟩
    exact hbad data hdata hhash
  refine ⟨hfalse, fun m r t => rfl, ?_, fun op t sz => ⟨rfl, rfl⟩,
    fun m op finalBytes t => ⟨rfl, rfl, rfl⟩⟩
  intro m sz ck t
  simp [completeBackupMetadata, hfalse]

/-- Witness for `c10_integrity_failure_soft` at a concrete input: the
corrupted chunk of `badStorage`. -/
theorem c10_integrity_failure_soft_witness :
    verifyBackupIntegrity idHash cfgCheck badStorage [badChunk] = false ∧
    (∀ (m : BackupMetadata) (r : BackupResult) (t : Nat),
      (completeBackupMetadata m r t).status = "completed") ∧
    (∀ (m : BackupMetadata) (sz : Nat) (ck : Bytes) (t : Nat),
      (completeBackupMetadata m
        { size := sz, chunks := [badChunk], checksum := ck,
          integrityVerified :=
            verifyBackupIntegrity idHash cfgCheck badStorage [badChunk] }
        t).integrityVerified = false) ∧
    (∀ (op : Operation) (t sz : Nat),
      (completeOperation op t sz).status = "completed" ∧
      (completeOperation op t sz).error = op.error) ∧
    (∀ (m : BackupMetadata) (op : Operation) (finalBytes : Bytes) (t : Nat),
      ((createBackupSuccess idHash cfgCheck badStorage m op finalBytes
        t).1).status = "completed" ∧
      ((createBackupSuccess idHash cfgCheck badStorage m op finalBytes
        t).2.1).status = "completed" ∧
      ((createBackupSuccess idHash cfgCheck badStorage m op finalBytes
        t).2.1).error = op.error) :=
  c10_integrity_failure_soft idHash cfgCheck badStorage [badChunk] rfl
    badChunk (by simp)
    (by
      intro data hdata
      have hd : data = [1, 2] := by
        have h2 : Except.ok (ε := String) data = .ok [1, 2] :=
          hdata.symm.trans (by decide :
            downloadChunk badStorage badChunk.backupId badChunk.id = .ok [1, 2])
        exact Except.ok.inj h2
      rw [hd]
      decide)

end LimaHostBackup
